import Mathlib

/-!
Shallow embedding of `pymc/distributions/shape_utils.py` and verification of
its shape-broadcasting and size-resolution behaviour.

Shapes are modelled as lists of integers (Python tuples of ints); entries that
are not valid integers (non-numeric or non-integral values) are modelled by a
dedicated constructor.  Fallible functions return `Except`.
-/

set_option autoImplicit false

/-- Errors raised by the shape utilities: `TypeError` from `_check_shape_type`,
`ValueError`/`KeyError` style failures elsewhere. -/
inductive BErr where
  | typeError
  | valueError
deriving DecidableEq

/-- One entry of a user-supplied shape tuple: either a valid integer, or a
value that is not a valid integer (non-numeric, or numeric but non-integral),
which `_check_shape_type` rejects with a `TypeError`. -/
inductive Entry where
  | int (n : Int)
  | bad
deriving DecidableEq

/-- Embeds a list of plain integers as a list of valid shape entries. -/
def intShape (s : List Int) : List Entry := s.map Entry.int

/-- Embedding of `_check_shape_type`: walks the entries of a shape, collecting
the integer values, and raises a `TypeError` as soon as an entry is not a
valid integer. -/
def _check_shape_type : List Entry → Except BErr (List Int)
  | [] => .ok []
  | .int n :: rest =>
    match _check_shape_type rest with
    | .ok out => .ok (n :: out)
    | .error e => .error e
  | .bad :: _ => .error .typeError

/-- Embedding of the pairwise dimension rule used inside `shapes_broadcasting`:
`j if i == 1 else i if j == 1 else i if i == j else 0` (0 is the
incompatibility sentinel). -/
def broadcastDim (i j : Int) : Int :=
  if i = 1 then j else if j = 1 then i else if i = j then i else 0

/-- Embedding of the slice assignment
`x[-len(y):] = [rule(i, j) for i, j in zip(x[-len(y):], y)]`
performed when `len y ≤ len x`: the last `len y` entries of `x` are combined
with `y` via `broadcastDim`, the leading entries of `x` are kept. -/
def broadcastPairCore (x y : List Int) : List Int :=
  x.take (x.length - y.length) ++
    List.zipWith broadcastDim (x.drop (x.length - y.length)) y

/-- Embedding of one iteration of the loop in `shapes_broadcasting`: the
shorter list is swapped to the second position (`if len(x) < len(y): x, y = y, x`)
and then the trailing entries are combined. -/
def broadcastPair (x y : List Int) : List Int :=
  if x.length < y.length then broadcastPairCore y x else broadcastPairCore x y

/-- Embedding of the loop of `shapes_broadcasting` over `args[1:]`: each
argument is first validated by `_check_shape_type`, then folded into the
accumulator `x`; if any entry of the accumulator is the 0 sentinel
(`if not all(x)`), the function raises a `ValueError` (when
`raise_exception=True`) or returns `None`. -/
def shapesBroadcastingGo (raiseExc : Bool) (x : List Int) :
    List (List Entry) → Except BErr (Option (List Int))
  | [] => .ok (some x)
  | a :: rest =>
    match _check_shape_type a with
    | .error e => .error e
    | .ok y =>
      let x' := broadcastPair x y
      if x'.all (fun d => d != 0) then shapesBroadcastingGo raiseExc x' rest
      else if raiseExc then .error .valueError else .ok none

/-- Embedding of `shapes_broadcasting(*args, raise_exception=...)`.  A result
of `.ok none` models the Python return value `None` (broadcast failure with
`raise_exception=False`). -/
def shapes_broadcasting (args : List (List Entry)) (raiseExc : Bool) :
    Except BErr (Option (List Int)) :=
  match args with
  | [] => .ok (some [])
  | a :: rest =>
    match _check_shape_type a with
    | .error e => .error e
    | .ok x => shapesBroadcastingGo raiseExc x rest

/-- Pure core of `shapes_broadcasting` once all entries are known to be valid
integers: the same pairwise fold, without the `TypeError` layer. -/
def pureGo (x : List Int) : List (List Int) → Option (List Int)
  | [] => some x
  | y :: rest =>
    let x' := broadcastPair x y
    if x'.all (fun d => d != 0) then pureGo x' rest else none

/-- Model of the `size` argument of `broadcast_dist_samples_shape`
(`None`, an int, or a tuple), as accepted by `to_tuple`. -/
inductive PySize where
  | none
  | int (n : Int)
  | tuple (l : List Int)
deriving DecidableEq

/-- Embedding of `to_tuple` restricted to the values used as `size`:
`None ↦ ()`, `n ↦ (n,)`, tuples are kept. -/
def to_tuple : PySize → List Int
  | .none => []
  | .int n => [n]
  | .tuple l => l

/-- Validation loop `[_check_shape_type(s) for s in shapes]`: raises at the
first malformed shape. -/
def checkShapes : List (List Entry) → Except BErr (List (List Int))
  | [] => .ok []
  | s :: rest =>
    match _check_shape_type s with
    | .error e => .error e
    | .ok t =>
      match checkShapes rest with
      | .error e => .error e
      | .ok ts => .ok (t :: ts)

/-- Embedding of the size-prefix stripping comprehension of
`broadcast_dist_samples_shape`:
`s[len(_size):] if _size == s[:min([len(_size), len(s)])] else s`. -/
def spShape (_size : List Int) (s : List Int) : List Int :=
  if _size = s.take (min _size.length s.length) then s.drop _size.length else s

/-- Embedding of the padding step of `broadcast_dist_samples_shape`: when the
`size` tuple prefixes the shape, broadcasting axes of length 1 are inserted
between the size prefix and the remainder
(`shape[:len(_size)] + (1,) * (len(broadcast_shape) - len(sp_shape)) + shape[len(_size):]`). -/
def padShape (_size : List Int) (bLen : Nat) (sp : List Int × List Int) : List Int :=
  if _size = sp.1.take _size.length then
    sp.1.take _size.length ++
      List.replicate (bLen - sp.2.length) 1 ++
      sp.1.drop _size.length
  else sp.1

/-- Shape of a size-prefixed sample after the padding step: the `size` prefix
`u`, then enough broadcasting axes of length 1 to align the remainder `t`
with a broadcast result of rank `L`, then `t`. -/
def padded (u : List Int) (L : Nat) (t : List Int) : List Int :=
  u ++ (List.replicate (L - t.length) 1 ++ t)

/-- Embedding of `broadcast_dist_samples_shape(shapes, size)`: with
`size=None` it defers to `shapes_broadcasting` (translating a `None` result
into a `ValueError`); otherwise it strips the `size` prefix from the shapes
that carry it, broadcasts the stripped shapes, re-inserts the `size` prefix
with singleton axes in the middle, and broadcasts the padded shapes. -/
def broadcast_dist_samples_shape (shapes : List (List Entry)) (size : PySize) :
    Except BErr (List Int) :=
  match size with
  | .none =>
    match shapes_broadcasting shapes false with
    | .error e => .error e
    | .ok none => .error .valueError
    | .ok (some bs) => .ok bs
  | _ =>
    match checkShapes shapes with
    | .error e => .error e
    | .ok shapes =>
      let _size := to_tuple size
      let sp_shapes := shapes.map (spShape _size)
      match shapes_broadcasting (sp_shapes.map intShape) true with
      | .error _ => .error .valueError
      | .ok none => .error .valueError
      | .ok (some broadcast_shape) =>
        let broadcastable_shapes :=
          (shapes.zip sp_shapes).map (padShape _size broadcast_shape.length)
        match shapes_broadcasting (broadcastable_shapes.map intShape) true with
        | .ok (some out) => .ok out
        | _ => .error .valueError

/-- Python slice `l[:k]` for an integer bound `k`: a non-negative bound takes
the leading `k` elements (clamped), a negative bound counts from the end. -/
def pySliceTo {α : Type} (l : List α) (k : Int) : List α :=
  if 0 ≤ k then l.take k.toNat else l.take ((l.length : Int) + k).toNat

/-- One element of a user-provided `shape`/`size` tuple after conversion:
an integer or the `Ellipsis` marker. -/
inductive ShapeItem where
  | int (n : Int)
  | ellipsis
deriving DecidableEq

/-- Result record of `find_size` (the Python function returns the 4-tuple
`(create_size, ndim_expected, ndim_batch, ndim_supp)`, whose slots may hold
`None`). -/
structure FindSizeResult where
  create_size : Option (List ShapeItem)
  ndim_expected : Option Int
  ndim_batch : Option Int
  ndim_supp : Option Int
deriving DecidableEq

/-- Embedding of `find_size(shape, size, ndim_supp)`. -/
def find_size (shape : Option (List ShapeItem)) (size : Option (List ShapeItem))
    (ndim_supp : Int) : FindSizeResult :=
  match shape with
  | some sh =>
    if ShapeItem.ellipsis ∈ sh then
      ⟨none, none, none, some ndim_supp⟩
    else
      let ndim_expected : Int := sh.length
      let ndim_batch : Int := ndim_expected - ndim_supp
      ⟨some (pySliceTo sh ndim_batch), some ndim_expected, some ndim_batch, some ndim_supp⟩
  | none =>
    match size with
    | some sz =>
      let ndim_expected : Int := ndim_supp + sz.length
      let ndim_batch : Int := ndim_expected - ndim_supp
      ⟨some sz, some ndim_expected, some ndim_batch, some ndim_supp⟩
    | none => ⟨none, none, none, some ndim_supp⟩

/-- One element of a user-provided `dims` tuple: a dimension name, `None`,
or the `Ellipsis` marker. -/
inductive DimItem where
  | name (s : String)
  | none
  | ellipsis
deriving DecidableEq

/-- The `dims` argument of `convert_dims`: `None`, a bare string, a
list/tuple, or a value of an invalid type. -/
inductive DimsArg where
  | none
  | str (s : String)
  | seq (l : List DimItem)
  | invalid

/-- Embedding of `convert_dims`: normalizes to `None` or a tuple and rejects
an `Ellipsis` in any non-final position with a `ValueError`. -/
def convert_dims : DimsArg → Except Unit (Option (List DimItem))
  | .none => .ok Option.none
  | .str s => .ok (some [DimItem.name s])
  | .seq l =>
    if l.dropLast.any (fun d => d == DimItem.ellipsis) then .error ()
    else .ok (some l)
  | .invalid => .error ()

/-- The `shape` argument of `convert_shape`: `None`, a bare int, a
list/tuple, or a value of an invalid type. -/
inductive ShapeArg where
  | none
  | int (n : Int)
  | seq (l : List ShapeItem)
  | invalid

/-- Embedding of `convert_shape`: normalizes to `None` or a tuple and rejects
an `Ellipsis` in any non-final position with a `ValueError`. -/
def convert_shape : ShapeArg → Except Unit (Option (List ShapeItem))
  | .none => .ok Option.none
  | .int n => .ok (some [ShapeItem.int n])
  | .seq l =>
    if l.dropLast.any (fun s => s == ShapeItem.ellipsis) then .error ()
    else .ok (some l)
  | .invalid => .error ()

/-- The `size` argument of `convert_size`: `None`, a bare int, a list/tuple,
or a value of an invalid type. -/
inductive SizeArg where
  | none
  | int (n : Int)
  | seq (l : List ShapeItem)
  | invalid

/-- Embedding of `convert_size`: normalizes to `None` or a tuple and rejects
an `Ellipsis` anywhere in the tuple with a `ValueError`. -/
def convert_size : SizeArg → Except Unit (Option (List ShapeItem))
  | .none => .ok Option.none
  | .int n => .ok (some [ShapeItem.int n])
  | .seq l =>
    if ShapeItem.ellipsis ∈ l then .error () else .ok (some l)
  | .invalid => .error ()

/-- The model collaborator of `resize_from_dims`: its registry mapping
dimension name to (possibly symbolic, here numeric) length,
`model.dim_lengths`. -/
structure PmModel where
  dim_lengths : List (String × Int)
deriving DecidableEq

/-- Dictionary membership `d in model.dim_lengths`: only string keys present
in the registry match (`None` and `Ellipsis` never equal a string key). -/
def dimKnown (m : PmModel) (d : DimItem) : Bool :=
  match d with
  | .name s => (m.dim_lengths.lookup s).isSome
  | _ => false

/-- Dictionary lookup `model.dim_lengths[dname]` (0 as an unreachable
default: it is only applied to keys already known to be present). -/
def dimLength (m : PmModel) (d : DimItem) : Int :=
  match d with
  | .name s => (m.dim_lengths.lookup s).getD 0
  | _ => 0

/-- Embedding of `resize_from_dims(dims, ndim_implied, model)`: expands an
`Ellipsis` (`dims[:-1] + (None,) * ndim_implied`), computes
`ndim_resize = len(dims) - ndim_implied`, and either raises a `KeyError`
carrying the set of unknown leading dims, or returns
`(ndim_resize, resize_shape, dims)`. -/
def resize_from_dims (dims : List DimItem) (ndim_implied : Nat) (model : PmModel) :
    Except (List DimItem) (Int × List Int × List DimItem) :=
  let dims := if DimItem.ellipsis ∈ dims
    then dims.dropLast ++ List.replicate ndim_implied DimItem.none
    else dims
  let ndim_resize : Int := (dims.length : Int) - (ndim_implied : Int)
  let lead := pySliceTo dims ndim_resize
  let unknown := (lead.filter (fun d => ! dimKnown model d)).dedup
  if unknown.isEmpty then
    .ok (ndim_resize, lead.map (dimLength model), dims)
  else .error unknown

/-- Expansion step as described by the spec for `resize_from_dims`: a
trailing ellipsis in `dims` is expanded into `ndim_implied` `None`
placeholders. -/
def expandDims (dims : List DimItem) (ndim_implied : Nat) : List DimItem :=
  if dims.getLast? = some DimItem.ellipsis
  then dims.dropLast ++ List.replicate ndim_implied DimItem.none
  else dims

/-- Abstraction of a created random variable: all `maybe_resize` inspects on
it is its number of dimensions. -/
structure RV where
  ndim : Nat
deriving DecidableEq

/-- Errors `maybe_resize` can raise: the internal-consistency `ShapeError`,
or a `TypeError` from comparing/combining an int with `None`. -/
inductive MRErr where
  | shapeError
  | typeError
deriving DecidableEq

/-- Content of the `ShapeWarning` emitted by `maybe_resize` when `size` was
given and the resulting dimensionality is unexpected: the warning message
mentions `len(tuple(size))`, `ndim_supp` and the actual number of
dimensions. -/
structure SizeWarning where
  size_len : Nat
  ndim_supp : Int
  ndim_actual : Nat
deriving DecidableEq

/-- Embedding of `maybe_resize`.  The external collaborators are passed as
functions: `rv_op` models recreating the RV with `size=None`
(`rv_op(*dist_params, size=None, **kwargs)`), and `change_rv_size` models the
expand-resize operation.  The result carries the (possibly recreated/resized)
variable together with the list of warnings emitted. -/
def maybe_resize (rv_out : RV) (rv_op : Unit → RV)
    (change_rv_size : RV → List ShapeItem → RV)
    (ndim_expected : Option Int) (ndim_batch : Option Int) (ndim_supp : Int)
    (shape : Option (List ShapeItem)) (size : Option (List ShapeItem)) :
    Except MRErr (RV × List SizeWarning) :=
  let ndim_actual := rv_out.ndim
  let ndims_unexpected := ndim_expected ≠ some (ndim_actual : Int)
  let step1 : Except MRErr RV :=
    match shape with
    | some sh =>
      if ndims_unexpected then
        if ShapeItem.ellipsis ∈ sh then
          .ok (change_rv_size rv_out sh.dropLast)
        else
          let rv2 := rv_op ()
          match ndim_expected with
          | none => .error .typeError
          | some e =>
            let rv3 := if (rv2.ndim : Int) < e then
                change_rv_size rv2 (pySliceTo sh (e - (rv2.ndim : Int)))
              else rv2
            if (rv3.ndim : Int) ≠ e then
              match ndim_batch with
              | none => .error .typeError
              | some _ => .error .shapeError
            else .ok rv3
      else .ok rv_out
    | none => .ok rv_out
  match step1 with
  | .error e => .error e
  | .ok rv =>
    let warns : List SizeWarning :=
      match size with
      | some sz =>
        if ndims_unexpected then [⟨sz.length, ndim_supp, ndim_actual⟩] else []
      | none => []
    .ok (rv, warns)

/-! ### Reference definitions for NumPy broadcasting (from the spec) -/

/-- Dimension of a shape at leading-aligned position `p`, defaulting to 1
beyond the end of the list. -/
def ldim : List Int → Nat → Int
  | [], _ => 1
  | d :: _, 0 => d
  | _ :: s, p + 1 => ldim s p

/-- Dimension of a shape at trailing-aligned position `p` (`p = 0` is the
last entry), defaulting to 1 for positions beyond the rank of the shape. -/
def tdim (s : List Int) (p : Nat) : Int := ldim s.reverse p

/-- Length of the broadcast result: the maximum rank among the shapes. -/
def maxLen (shapes : List (List Int)) : Nat :=
  shapes.foldr (fun s acc => max s.length acc) 0

/-- Maximum of the dimensions of the shapes at trailing position `p`
(missing dimensions count as 1). -/
def maxDimAt (shapes : List (List Int)) (p : Nat) : Int :=
  shapes.foldr (fun s acc => max (tdim s p) acc) 1

/-- Reference output dimension at trailing position `p`, following the spec:
the maximum of the non-1 input dimensions at that position, or 1 if all
inputs there are 1. -/
def refDimAt (shapes : List (List Int)) (p : Nat) : Int :=
  match (shapes.map (fun s => tdim s p)).filter (fun d => d != 1) with
  | [] => 1
  | d :: ds => ds.foldl max d

/-- Reference broadcast result, following the spec: one dimension per
trailing-aligned position, each given by `refDimAt`. -/
def refBroadcast (shapes : List (List Int)) : List Int :=
  ((List.range (maxLen shapes)).map (fun p => refDimAt shapes p)).reverse

/-- NumPy compatibility at one trailing position: all non-1 dimensions
agree. -/
def compatAt (shapes : List (List Int)) (p : Nat) : Prop :=
  ∀ s ∈ shapes, ∀ t ∈ shapes, tdim s p ≠ 1 → tdim t p ≠ 1 → tdim s p = tdim t p

/-- Mutual broadcast compatibility under NumPy rules: position by position
from the trailing dimension, all non-1 dimensions agree. -/
def NumpyCompatible (shapes : List (List Int)) : Prop :=
  ∀ p < maxLen shapes, compatAt shapes p

instance instDecCompatAt (shapes : List (List Int)) (p : Nat) :
    Decidable (compatAt shapes p) := by
  unfold compatAt; infer_instance

instance instDecNumpyCompatible (shapes : List (List Int)) :
    Decidable (NumpyCompatible shapes) := by
  unfold NumpyCompatible; infer_instance

instance instDecEqExcept {ε α : Type} [DecidableEq ε] [DecidableEq α] :
    DecidableEq (Except ε α) := fun x y =>
  match x, y with
  | .error a, .error b =>
    if h : a = b then .isTrue (by rw [h])
    else .isFalse (fun hh => h (Except.error.inj hh))
  | .error _, .ok _ => .isFalse (fun hh => Except.noConfusion hh)
  | .ok _, .error _ => .isFalse (fun hh => Except.noConfusion hh)
  | .ok a, .ok b =>
    if h : a = b then .isTrue (by rw [h])
    else .isFalse (fun hh => h (Except.ok.inj hh))

/-! ### Lemmas about positional dimensions -/

theorem ldim_of_le : ∀ (s : List Int) (p : Nat), s.length ≤ p → ldim s p = 1
  | [], _, _ => rfl
  | _ :: _, 0, h => by simp at h
  | _ :: s, p + 1, h => ldim_of_le s p (by simp at h; omega)

theorem ldim_eq_getElem : ∀ (s : List Int) (p : Nat) (h : p < s.length),
    ldim s p = s[p]
  | _ :: _, 0, _ => rfl
  | _ :: s, p + 1, h => ldim_eq_getElem s p (by simp at h; omega)

theorem ldim_mem (s : List Int) (p : Nat) (h : p < s.length) : ldim s p ∈ s := by
  rw [ldim_eq_getElem s p h]; exact List.getElem_mem h

theorem tdim_of_le (s : List Int) (p : Nat) (h : s.length ≤ p) : tdim s p = 1 :=
  ldim_of_le s.reverse p (by simpa using h)

theorem ldim_append (u v : List Int) (p : Nat) :
    ldim (u ++ v) p = if p < u.length then ldim u p else ldim v (p - u.length) := by
  induction u generalizing p with
  | nil => simp [ldim]
  | cons d u ih =>
    cases p with
    | zero => simp [ldim]
    | succ p =>
      have h1 : ldim ((d :: u) ++ v) (p + 1) = ldim (u ++ v) p := rfl
      have h2 : ldim (d :: u) (p + 1) = ldim u p := rfl
      rw [h1, ih p, List.length_cons]
      by_cases hc : p < u.length
      · rw [if_pos hc, if_pos (by omega), h2]
      · rw [if_neg hc, if_neg (by omega), Nat.succ_sub_succ]

theorem tdim_cons (a : Int) (l : List Int) (p : Nat) :
    tdim (a :: l) p = if p = l.length then a else tdim l p := by
  show ldim ((a :: l).reverse) p = _
  rw [List.reverse_cons, ldim_append]
  rcases lt_trichotomy p l.length with h | h | h
  · rw [if_pos (by simpa using h), if_neg (by omega)]; rfl
  · subst h
    rw [if_neg (by simp), if_pos rfl, List.length_reverse, Nat.sub_self]; rfl
  · rw [if_neg (by simp; omega), if_neg (by omega)]
    rw [tdim_of_le l p (le_of_lt h)]
    have hk : p - l.reverse.length = (p - l.reverse.length - 1) + 1 := by
      simp only [List.length_reverse]; omega
    rw [hk]; rfl

theorem tdim_ext : ∀ (x y : List Int), x.length = y.length →
    (∀ p, tdim x p = tdim y p) → x = y
  | [], [], _, _ => rfl
  | [], _ :: _, h, _ => by simp at h
  | _ :: _, [], h, _ => by simp at h
  | a :: x, b :: y, h, hp => by
    have hl : x.length = y.length := by simpa using h
    have hab : a = b := by
      have hx := hp x.length
      rw [tdim_cons, tdim_cons, if_pos rfl, if_pos hl] at hx
      exact hx
    have hxy : x = y := tdim_ext x y hl (fun p => by
      by_cases hpl : p = x.length
      · subst hpl
        rw [tdim_of_le x _ le_rfl, tdim_of_le y _ (le_of_eq hl.symm)]
      · have hx := hp p
        rw [tdim_cons, tdim_cons, if_neg hpl, if_neg (fun hc => hpl (hl ▸ hc))] at hx
        exact hx)
    rw [hab, hxy]

theorem all_ne_zero_iff (x : List Int) :
    (x.all (fun d => d != 0) = true) ↔ ∀ p, tdim x p ≠ 0 := by
  rw [List.all_eq_true]
  constructor
  · intro h p
    by_cases hp : p < x.length
    · have hm : tdim x p ∈ x := by
        have := ldim_mem x.reverse p (by simpa using hp)
        rw [List.mem_reverse] at this
        exact this
      have := h _ hm
      simpa using this
    · rw [tdim_of_le x p (by omega)]; omega
  · intro h d hd
    rw [← List.mem_reverse] at hd
    obtain ⟨p, hp, rfl⟩ := List.getElem_of_mem hd
    have := h p
    rw [show tdim x p = x.reverse[p] from ldim_eq_getElem x.reverse p hp] at this
    simpa using this

/-! ### Lemmas about the pairwise broadcast rule -/

theorem broadcastDim_one_right (i : Int) : broadcastDim i 1 = i := by
  unfold broadcastDim; split_ifs <;> omega

theorem broadcastDim_one_one : broadcastDim 1 1 = 1 := broadcastDim_one_right 1

theorem broadcastDim_comm (i j : Int) : broadcastDim i j = broadcastDim j i := by
  unfold broadcastDim; split_ifs <;> omega

theorem broadcastDim_eq_max (i j : Int) (hi : 1 ≤ i) (hj : 1 ≤ j)
    (hc : i ≠ 1 → j ≠ 1 → i = j) : broadcastDim i j = max i j := by
  rcases max_cases i j with ⟨h1, h2⟩ | ⟨h1, h2⟩ <;>
    · unfold broadcastDim; split_ifs <;> omega

theorem tdim_zipWith : ∀ (x y : List Int), x.length = y.length →
    (List.zipWith broadcastDim x y).length = x.length ∧
    ∀ p, tdim (List.zipWith broadcastDim x y) p =
      broadcastDim (tdim x p) (tdim y p)
  | [], [], _ => ⟨rfl, fun p => by
      show tdim [] p = broadcastDim (tdim [] p) (tdim [] p)
      show (1 : Int) = broadcastDim 1 1
      rw [broadcastDim_one_one]⟩
  | [], _ :: _, h => by simp at h
  | _ :: _, [], h => by simp at h
  | a :: x, b :: y, h => by
    have hl : x.length = y.length := by simpa using h
    obtain ⟨ih1, ih2⟩ := tdim_zipWith x y hl
    constructor
    · simpa using ih1
    · intro p
      show tdim (broadcastDim a b :: List.zipWith broadcastDim x y) p = _
      rw [tdim_cons, tdim_cons, tdim_cons, ih1]
      by_cases hp : p = x.length
      · rw [if_pos hp, if_pos hp, if_pos (hl ▸ hp)]
      · rw [if_neg hp, if_neg hp, if_neg (fun hc => hp (hl ▸ hc)), ih2]

theorem broadcastPairCore_spec : ∀ (x y : List Int), y.length ≤ x.length →
    (broadcastPairCore x y).length = x.length ∧
    ∀ p, tdim (broadcastPairCore x y) p = broadcastDim (tdim x p) (tdim y p)
  | [], y, h => by
    have hy : y = [] := by
      cases y with
      | nil => rfl
      | cons b ys => simp at h
    subst hy
    exact ⟨rfl, fun p => by
      show (1 : Int) = broadcastDim 1 1
      rw [broadcastDim_one_one]⟩
  | a :: x, y, h => by
    by_cases h' : y.length ≤ x.length
    · have hstep : broadcastPairCore (a :: x) y = a :: broadcastPairCore x y := by
        unfold broadcastPairCore
        have hsub : (a :: x).length - y.length = (x.length - y.length) + 1 := by
          simp only [List.length_cons]; omega
        rw [hsub, List.take_succ_cons, List.drop_succ_cons, List.cons_append]
      obtain ⟨ih1, ih2⟩ := broadcastPairCore_spec x y h'
      rw [hstep]
      constructor
      · simpa using ih1
      · intro p
        rw [tdim_cons, tdim_cons, ih1]
        by_cases hp : p = x.length
        · rw [if_pos hp, if_pos hp, hp, tdim_of_le y x.length h',
            broadcastDim_one_right]
        · rw [if_neg hp, if_neg hp, ih2]
    · have hlen : y.length = (a :: x).length := by simp at *; omega
      have hcore : broadcastPairCore (a :: x) y =
          List.zipWith broadcastDim (a :: x) y := by
        unfold broadcastPairCore
        rw [hlen, Nat.sub_self, List.take_zero, List.drop_zero, List.nil_append]
      rw [hcore]
      obtain ⟨z1, z2⟩ := tdim_zipWith (a :: x) y hlen.symm
      exact ⟨z1, z2⟩

theorem broadcastPair_spec (x y : List Int) :
    (broadcastPair x y).length = max x.length y.length ∧
    ∀ p, tdim (broadcastPair x y) p = broadcastDim (tdim x p) (tdim y p) := by
  unfold broadcastPair
  by_cases h : x.length < y.length
  · rw [if_pos h]
    obtain ⟨h1, h2⟩ := broadcastPairCore_spec y x (le_of_lt h)
    exact ⟨by omega, fun p => by rw [h2 p, broadcastDim_comm]⟩
  · rw [if_neg h]
    obtain ⟨h1, h2⟩ := broadcastPairCore_spec x y (by omega)
    exact ⟨by omega, h2⟩

/-! ### The pairwise fold computes the positional maximum -/

theorem maxLen_cons (s : List Int) (shapes : List (List Int)) :
    maxLen (s :: shapes) = max s.length (maxLen shapes) := rfl

theorem maxDimAt_cons (s : List Int) (shapes : List (List Int)) (p : Nat) :
    maxDimAt (s :: shapes) p = max (tdim s p) (maxDimAt shapes p) := rfl

theorem length_le_maxLen (shapes : List (List Int)) :
    ∀ s ∈ shapes, s.length ≤ maxLen shapes := by
  induction shapes with
  | nil => intro s hs; simp at hs
  | cons t shapes ih =>
    intro s hs
    rcases List.mem_cons.mp hs with rfl | hs
    · rw [maxLen_cons]; omega
    · have := ih s hs; rw [maxLen_cons]; omega

theorem maxDimAt_of_maxLen_le (shapes : List (List Int)) (p : Nat)
    (h : maxLen shapes ≤ p) : maxDimAt shapes p = 1 := by
  induction shapes with
  | nil => rfl
  | cons s shapes ih =>
    rw [maxDimAt_cons, tdim_of_le s p (by rw [maxLen_cons] at h; omega),
      ih (by rw [maxLen_cons] at h; omega)]
    omega

theorem pureGo_spec : ∀ (rest : List (List Int)) (x : List Int),
    (∀ p, compatAt (x :: rest) p) →
    (∀ s ∈ x :: rest, ∀ p, 1 ≤ tdim s p) →
    ∃ z, pureGo x rest = some z ∧ z.length = maxLen (x :: rest) ∧
      ∀ p, tdim z p = maxDimAt (x :: rest) p
  | [], x, _, hpos => by
    refine ⟨x, rfl, ?_, ?_⟩
    · rw [maxLen_cons, show maxLen [] = 0 from rfl, Nat.max_zero]
    · intro p
      rw [maxDimAt_cons]
      have h1 : maxDimAt [] p = 1 := rfl
      have := hpos x (List.mem_cons_self x []) p
      rw [h1]; omega
  | y :: rest, x, hc, hpos => by
    have hmx : x ∈ x :: y :: rest := List.mem_cons_self _ _
    have hmy : y ∈ x :: y :: rest := List.mem_cons_of_mem _ (List.mem_cons_self _ _)
    obtain ⟨hlen, htd⟩ := broadcastPair_spec x y
    have hposx := hpos x hmx
    have hposy := hpos y hmy
    have htd' : ∀ p, tdim (broadcastPair x y) p = max (tdim x p) (tdim y p) := by
      intro p
      rw [htd p]
      exact broadcastDim_eq_max _ _ (hposx p) (hposy p)
        (fun h1 h2 => hc p x hmx y hmy h1 h2)
    have hpos' : ∀ p, 1 ≤ tdim (broadcastPair x y) p := by
      intro p; rw [htd' p]; have := hposx p; omega
    have hall : (broadcastPair x y).all (fun d => d != 0) = true :=
      (all_ne_zero_iff _).mpr (fun p => by have := hpos' p; omega)
    have hcompat' : ∀ p, compatAt (broadcastPair x y :: rest) p := by
      intro p s hs t ht hs1 ht1
      have key : ∀ t' ∈ rest, tdim (broadcastPair x y) p ≠ 1 → tdim t' p ≠ 1 →
          tdim (broadcastPair x y) p = tdim t' p := by
        intro t' hmt' hne1 hne2
        have hmt : t' ∈ x :: y :: rest :=
          List.mem_cons_of_mem _ (List.mem_cons_of_mem _ hmt')
        rw [htd' p] at hne1 ⊢
        rcases max_cases (tdim x p) (tdim y p) with ⟨h1, h2⟩ | ⟨h1, h2⟩
        · rw [h1] at hne1 ⊢
          exact hc p x hmx t' hmt hne1 hne2
        · rw [h1] at hne1 ⊢
          exact hc p y hmy t' hmt hne1 hne2
      rcases List.mem_cons.mp hs with rfl | hs
      · rcases List.mem_cons.mp ht with rfl | ht
        · rfl
        · exact key t ht hs1 ht1
      · rcases List.mem_cons.mp ht with rfl | ht
        · exact (key s hs ht1 hs1).symm
        · exact hc p s (List.mem_cons_of_mem _ (List.mem_cons_of_mem _ hs))
            t (List.mem_cons_of_mem _ (List.mem_cons_of_mem _ ht)) hs1 ht1
    have hpos'' : ∀ s ∈ broadcastPair x y :: rest, ∀ p, 1 ≤ tdim s p := by
      intro s hs p
      rcases List.mem_cons.mp hs with rfl | hs
      · exact hpos' p
      · exact hpos s (List.mem_cons_of_mem _ (List.mem_cons_of_mem _ hs)) p
    obtain ⟨z, hz, hzlen, hztd⟩ := pureGo_spec rest (broadcastPair x y) hcompat' hpos''
    refine ⟨z, ?_, ?_, ?_⟩
    · show (if (broadcastPair x y).all (fun d => d != 0) = true
          then pureGo (broadcastPair x y) rest else none) = some z
      rw [if_pos hall]; exact hz
    · rw [hzlen, maxLen_cons, maxLen_cons, maxLen_cons, hlen]
      omega
    · intro p
      rw [hztd p, maxDimAt_cons, maxDimAt_cons, maxDimAt_cons, htd' p]
      rw [max_assoc]

/-! ### The spec reference definition agrees with the positional maximum -/

theorem foldr_max_le (l : List Int) : ∀ v ∈ l, v ≤ l.foldr max 1 := by
  induction l with
  | nil => intro v hv; simp at hv
  | cons a l ih =>
    intro v hv
    rcases List.mem_cons.mp hv with rfl | hv
    · show v ≤ max v _; omega
    · have := ih v hv; show v ≤ max a _; omega

theorem one_le_foldr_max (l : List Int) : 1 ≤ l.foldr max 1 := by
  induction l with
  | nil => simp
  | cons a l ih => show 1 ≤ max a _; omega

theorem foldr_max_mem (l : List Int) : l.foldr max 1 ∈ l ∨ l.foldr max 1 = 1 := by
  induction l with
  | nil => right; rfl
  | cons a l ih =>
    show max a (l.foldr max 1) ∈ a :: l ∨ max a (l.foldr max 1) = 1
    rcases max_cases a (l.foldr max 1) with ⟨h1, _⟩ | ⟨h1, _⟩
    · rw [h1]; left; exact List.mem_cons_self a l
    · rw [h1]
      rcases ih with hm | h1'
      · left; exact List.mem_cons_of_mem a hm
      · right; exact h1'

theorem le_foldl_max : ∀ (ds : List Int) (d : Int), d ≤ ds.foldl max d
  | [], _ => le_refl _
  | v :: ds, d => le_trans (le_max_left d v) (le_foldl_max ds (max d v))

theorem mem_le_foldl_max : ∀ (ds : List Int) (d : Int), ∀ v ∈ ds, v ≤ ds.foldl max d
  | [], _, v, hv => by simp at hv
  | w :: ds, d, v, hv => by
    rcases List.mem_cons.mp hv with rfl | hv
    · exact le_trans (le_max_right d v) (le_foldl_max ds (max d v))
    · exact mem_le_foldl_max ds (max d w) v hv

theorem foldl_max_mem : ∀ (ds : List Int) (d : Int),
    ds.foldl max d = d ∨ ds.foldl max d ∈ ds
  | [], _ => Or.inl rfl
  | v :: ds, d => by
    have hfold : (v :: ds).foldl max d = ds.foldl max (max d v) := rfl
    rcases foldl_max_mem ds (max d v) with h | h
    · rcases max_choice d v with hc | hc
      · left; rw [hfold, h, hc]
      · right; rw [hfold, h, hc]; exact List.mem_cons_self v ds
    · right; rw [hfold]; exact List.mem_cons_of_mem v h

theorem maxDimAt_eq_foldr (shapes : List (List Int)) (p : Nat) :
    maxDimAt shapes p = (shapes.map (fun s => tdim s p)).foldr max 1 := by
  induction shapes with
  | nil => rfl
  | cons s shapes ih => rw [maxDimAt_cons, ih]; rfl

theorem refDimAt_eq_maxDimAt (shapes : List (List Int)) (p : Nat)
    (hpos : ∀ s ∈ shapes, ∀ q, 1 ≤ tdim s q) :
    refDimAt shapes p = maxDimAt shapes p := by
  unfold refDimAt
  rw [maxDimAt_eq_foldr]
  have hl : ∀ v ∈ shapes.map (fun s => tdim s p), 1 ≤ v := by
    intro v hv
    obtain ⟨s, hs, rfl⟩ := List.mem_map.mp hv
    exact hpos s hs p
  cases hfil : (shapes.map (fun s => tdim s p)).filter (fun d => d != 1) with
  | nil =>
    have hall : ∀ v ∈ shapes.map (fun s => tdim s p), v = 1 := by
      intro v hv
      by_contra hne
      have hvf : v ∈ (shapes.map (fun s => tdim s p)).filter (fun d => d != 1) :=
        List.mem_filter.mpr ⟨hv, by simp only [bne_iff_ne, ne_eq]; exact hne⟩
      rw [hfil] at hvf; simp at hvf
    show (1 : Int) = _
    rcases foldr_max_mem (shapes.map (fun s => tdim s p)) with hm | h1
    · exact (hall _ hm).symm
    · exact h1.symm
  | cons d ds =>
    have hmem : ∀ v, v ∈ d :: ds ↔
        v ∈ shapes.map (fun s => tdim s p) ∧ v ≠ 1 := by
      intro v
      rw [← hfil, List.mem_filter]
      simp [bne_iff_ne]
    have hdmem := (hmem d).mp (List.mem_cons_self d ds)
    set M := (shapes.map (fun s => tdim s p)).foldr max 1 with hM
    have hF : ds.foldl max d ≤ M := by
      rcases foldl_max_mem ds d with h | h
      · rw [h]; exact foldr_max_le _ d hdmem.1
      · have := (hmem _).mp (List.mem_cons_of_mem d h)
        exact foldr_max_le _ _ this.1
    have hMne : M ≠ 1 := by
      intro h1
      have hd1 : d ≤ 1 := h1 ▸ foldr_max_le _ d hdmem.1
      have := hl d hdmem.1
      exact hdmem.2 (by omega)
    have hMF : M ≤ ds.foldl max d := by
      rcases foldr_max_mem (shapes.map (fun s => tdim s p)) with hm | h1
      · have hMfil := (hmem M).mpr ⟨hm, hMne⟩
        rcases List.mem_cons.mp hMfil with rfl | hMds
        · exact le_foldl_max ds M
        · exact mem_le_foldl_max ds d M hMds
      · exact absurd h1 hMne
    show ds.foldl max d = M
    omega

theorem length_refBroadcast (shapes : List (List Int)) :
    (refBroadcast shapes).length = maxLen shapes := by
  simp [refBroadcast]

theorem tdim_refBroadcast (shapes : List (List Int)) (p : Nat) :
    tdim (refBroadcast shapes) p =
      if p < maxLen shapes then refDimAt shapes p else 1 := by
  unfold tdim refBroadcast
  rw [List.reverse_reverse]
  by_cases h : p < maxLen shapes
  · rw [if_pos h, ldim_eq_getElem _ _ (by simpa using h)]
    simp
  · rw [if_neg h, ldim_of_le _ _ (by simp; omega)]

/-! ### Bridging the full function to its pure core -/

theorem check_intShape (s : List Int) : _check_shape_type (intShape s) = .ok s := by
  induction s with
  | nil => rfl
  | cons a s ih =>
    show _check_shape_type (.int a :: intShape s) = .ok (a :: s)
    rw [_check_shape_type, ih]

theorem go_bridge (raiseExc : Bool) : ∀ (rest : List (List Int)) (x : List Int),
    shapesBroadcastingGo raiseExc x (rest.map intShape) =
      match pureGo x rest with
      | some z => .ok (some z)
      | none => if raiseExc then .error .valueError else .ok none
  | [], x => rfl
  | y :: rest, x => by
    simp only [List.map_cons, shapesBroadcastingGo, check_intShape, pureGo]
    by_cases h : (broadcastPair x y).all (fun d => d != 0) = true
    · rw [if_pos h, if_pos h]
      exact go_bridge raiseExc rest (broadcastPair x y)
    · rw [if_neg h, if_neg h]

theorem shapes_broadcasting_cons (x : List Int) (rest : List (List Int)) (r : Bool) :
    shapes_broadcasting ((x :: rest).map intShape) r =
      match pureGo x rest with
      | some z => .ok (some z)
      | none => if r then .error .valueError else .ok none := by
  simp only [List.map_cons, shapes_broadcasting, check_intShape]
  exact go_bridge r rest x

theorem pos_tdim (s : List Int) (hpos : ∀ d ∈ s, 0 < d) : ∀ p, 1 ≤ tdim s p := by
  intro p
  by_cases hp : p < s.length
  · have hm : tdim s p ∈ s := by
      have := ldim_mem s.reverse p (by simpa using hp)
      rwa [List.mem_reverse] at this
    exact hpos _ hm
  · rw [tdim_of_le s p (by omega)]

theorem compat_all (shapes : List (List Int)) (h : NumpyCompatible shapes) :
    ∀ p, compatAt shapes p := by
  intro p
  by_cases hp : p < maxLen shapes
  · exact h p hp
  · intro s hs t ht hs1 _
    exact absurd (tdim_of_le s p (le_trans (length_le_maxLen shapes s hs) (by omega))) hs1

theorem shapes_broadcasting_numpy_core
    (shapes : List (List Int)) (r : Bool)
    (hpos : ∀ s ∈ shapes, ∀ d ∈ s, 0 < d)
    (hcompat : NumpyCompatible shapes) :
    shapes_broadcasting (shapes.map intShape) r = .ok (some (refBroadcast shapes)) := by
  cases shapes with
  | nil => rfl
  | cons x rest =>
    have hpos' : ∀ s ∈ x :: rest, ∀ p, 1 ≤ tdim s p :=
      fun s hs => pos_tdim s (hpos s hs)
    have hcompat' := compat_all _ hcompat
    obtain ⟨z, hz, hzlen, hztd⟩ := pureGo_spec rest x hcompat' hpos'
    have hzeq : z = refBroadcast (x :: rest) := by
      apply tdim_ext
      · rw [hzlen, length_refBroadcast]
      · intro p
        rw [hztd p, tdim_refBroadcast]
        by_cases hp : p < maxLen (x :: rest)
        · rw [if_pos hp, refDimAt_eq_maxDimAt _ _ hpos']
        · rw [if_neg hp, maxDimAt_of_maxLen_le _ _ (by omega)]
    rw [shapes_broadcasting_cons, hz]
    show Except.ok (some z) = Except.ok (some (refBroadcast (x :: rest)))
    rw [hzeq]

/-- C1 (amended): for every list of shape tuples of positive integers that are
mutually broadcast-compatible under NumPy rules, `shapes_broadcasting` returns
the unique broadcast result in which each output dimension equals the maximum
of the non-1 input dimensions at that trailing-aligned position, or 1 if all
inputs there are 1 (the result computed by the iterative pairwise reduction
rule equals this reference definition).  The original claim, stated for
non-negative integers, fails for shapes containing a 0 dimension. -/
theorem shapes_broadcasting_computes_numpy
    (shapes : List (List Int)) (r : Bool)
    (hpos : ∀ s ∈ shapes, ∀ d ∈ s, 0 < d)
    (hcompat : NumpyCompatible shapes) :
    shapes_broadcasting (shapes.map intShape) r = .ok (some (refBroadcast shapes)) :=
  shapes_broadcasting_numpy_core shapes r hpos hcompat

/-- Witness for C1 at the concrete input [(2,1), (3,)], whose broadcast
result is (2,3). -/
theorem shapes_broadcasting_computes_numpy_witness :
    (∀ s ∈ [[(2:Int),1],[3]], ∀ d ∈ s, 0 < d) ∧
    NumpyCompatible [[(2:Int),1],[3]] ∧
    shapes_broadcasting ([[(2:Int),1],[3]].map intShape) false =
      .ok (some (refBroadcast [[(2:Int),1],[3]])) :=
  ⟨by decide, by decide,
    shapes_broadcasting_computes_numpy [[2,1],[3]] false (by decide) (by decide)⟩

/-- Counterexample to C1 as stated: the non-negative shapes (0,) and (0,) are
mutually broadcast-compatible under NumPy rules and their reference broadcast
is (0,), yet `shapes_broadcasting` treats the 0 dimension as its
incompatibility sentinel and returns the failure value `None` instead of the
reference result. -/
theorem shapes_broadcasting_zero_counterexample :
    NumpyCompatible [[(0:Int)],[0]] ∧
    refBroadcast [[(0:Int)],[0]] = [0] ∧
    shapes_broadcasting ([[(0:Int)],[0]].map intShape) false = .ok none ∧
    shapes_broadcasting ([[(0:Int)],[0]].map intShape) false ≠
      .ok (some (refBroadcast [[(0:Int)],[0]])) :=
  ⟨by decide, by decide, rfl, by decide⟩

/-- C5: for every pair of shapes that are not broadcast-compatible under
NumPy rules, `shapes_broadcasting` raises a `ValueError` when called with
`raise_exception=True` and returns the non-value `None` when called with
`raise_exception=False`. -/
theorem shapes_broadcasting_incompatible (s1 s2 : List Int)
    (h : ¬ NumpyCompatible [s1, s2]) :
    shapes_broadcasting ([s1, s2].map intShape) true = .error .valueError ∧
    shapes_broadcasting ([s1, s2].map intShape) false = .ok none := by
  have hbad : ∃ p, tdim s1 p ≠ 1 ∧ tdim s2 p ≠ 1 ∧ tdim s1 p ≠ tdim s2 p := by
    by_contra hno
    push_neg at hno
    apply h
    intro p _ s hs t ht hs1 ht1
    have hs' : s = s1 ∨ s = s2 := by simpa using hs
    have ht' : t = s1 ∨ t = s2 := by simpa using ht
    rcases hs' with rfl | rfl <;> rcases ht' with rfl | rfl
    · rfl
    · exact hno p hs1 ht1
    · exact (hno p ht1 hs1).symm
    · rfl
  obtain ⟨p, h1, h2, h3⟩ := hbad
  obtain ⟨hlen, htd⟩ := broadcastPair_spec s1 s2
  have h0 : tdim (broadcastPair s1 s2) p = 0 := by
    rw [htd p]; unfold broadcastDim; split_ifs <;> omega
  have hallne : ¬ ((broadcastPair s1 s2).all (fun d => d != 0) = true) := by
    intro hall
    exact ((all_ne_zero_iff _).mp hall p) h0
  have hpg : pureGo s1 [s2] = none := by
    simp only [pureGo]
    rw [if_neg hallne]
  constructor <;> (rw [shapes_broadcasting_cons, hpg]; rfl)

/-- Witness for C5 at the concrete incompatible pair (3,), (4,). -/
theorem shapes_broadcasting_incompatible_witness :
    (¬ NumpyCompatible [[(3:Int)],[4]]) ∧
    shapes_broadcasting ([[(3:Int)],[4]].map intShape) true = .error .valueError ∧
    shapes_broadcasting ([[(3:Int)],[4]].map intShape) false = .ok none :=
  ⟨by decide, (shapes_broadcasting_incompatible [3] [4] (by decide)).1,
    (shapes_broadcasting_incompatible [3] [4] (by decide)).2⟩

/-! ### Type checking of shape entries -/

theorem check_bad (s : List Entry) (h : Entry.bad ∈ s) :
    _check_shape_type s = .error .typeError := by
  induction s with
  | nil => simp at h
  | cons e s ih =>
    cases e with
    | bad => rfl
    | int n =>
      have hs : Entry.bad ∈ s := by simpa using h
      simp only [_check_shape_type, ih hs]

/-- Counterexample to C6 as stated: with the malformed shape in the third
argument and `raise_exception=False`, the broadcast failure between the first
two shapes (3,) and (4,) makes `shapes_broadcasting` return `None` before the
malformed shape is ever validated, so no type error is raised: the validation
is interleaved with the pairwise reduction, not performed before broadcasting
begins. -/
theorem shapes_broadcasting_late_typecheck_counterexample :
    shapes_broadcasting [intShape [3], intShape [4], [Entry.bad]] false = .ok none ∧
    shapes_broadcasting [intShape [3], intShape [4], [Entry.bad]] false ≠
      .error .typeError :=
  ⟨rfl, by decide⟩

/-- C6 (amended): a non-numeric/non-integral entry raises a `TypeError` when
the shape containing it is reached by the left-to-right pairwise reduction
(shapes are validated one at a time, interleaved with the reduction); in
particular, when the malformed shape is the first argument, the `TypeError` is
raised regardless of the remaining arguments and of the `raise_exception`
flag. -/
theorem shapes_broadcasting_bad_first (s : List Entry) (rest : List (List Entry))
    (r : Bool) (h : Entry.bad ∈ s) :
    shapes_broadcasting (s :: rest) r = .error .typeError := by
  simp only [shapes_broadcasting, check_bad s h]

/-- Witness for C6 (amended) at a malformed first shape. -/
theorem shapes_broadcasting_bad_first_witness :
    Entry.bad ∈ [Entry.bad] ∧
    shapes_broadcasting [[Entry.bad], intShape [4]] true = .error .typeError :=
  ⟨by decide, shapes_broadcasting_bad_first [Entry.bad] [intShape [4]] true (by decide)⟩

/-! ### find_size -/

/-- Counterexample to C4: with `ndim_supp = 1`, `find_size(shape=None,
size=None, ndim_supp=1)` does not return `None` in all four output slots: the
fourth output is the value `1`, the `ndim_supp` argument itself. -/
theorem find_size_none_counterexample :
    find_size none none 1 = ⟨none, none, none, some 1⟩ ∧
    find_size none none 1 ≠ ⟨none, none, none, none⟩ :=
  ⟨rfl, by decide⟩

/-- C4 (amended): when both `shape` and `size` are `None`, the first three
outputs of `find_size` (`create_size`, `ndim_expected`, `ndim_batch`) are all
`None`, and the fourth output is the `ndim_supp` argument unchanged. -/
theorem find_size_none_none (ndim_supp : Int) :
    find_size none none ndim_supp = ⟨none, none, none, some ndim_supp⟩ := rfl

/-- Counterexample to C3 as stated: at `shape=(2,3)`, `size=None`,
`ndim_supp=3` the claim yields `ndim_batch = -1` and `create_size` = the
leading `-1` elements of the shape, i.e. no elements; the code instead
computes `tuple(shape)[:-1] = (2,)` by Python slice semantics. -/
theorem find_size_shape_counterexample :
    find_size (some [ShapeItem.int 2, ShapeItem.int 3]) none 3 =
      ⟨some [ShapeItem.int 2], some 2, some (-1), some 3⟩ ∧
    find_size (some [ShapeItem.int 2, ShapeItem.int 3]) none 3 ≠
      ⟨some ((([ShapeItem.int 2, ShapeItem.int 3]).take ((-1 : Int)).toNat)),
        some 2, some (-1), some 3⟩ :=
  ⟨rfl, by decide⟩

/-- C3 (amended): for every shape tuple of integers (no ellipsis) and every
integer `ndim_supp`, `find_size(shape, size=None, ndim_supp)` returns
`ndim_expected = len(shape)`, `ndim_batch = ndim_expected - ndim_supp`, and
`create_size = shape[:ndim_batch]` under Python slice semantics — equal to
the leading `ndim_batch` elements whenever `ndim_batch ≥ 0`; in particular
`find_size(shape=(2,3), size=None, ndim_supp=1)` returns `create_size=(2,)`,
`ndim_expected=2`, `ndim_batch=1`. -/
theorem find_size_shape_no_ellipsis (shape : List Int) (ndim_supp : Int) :
    find_size (some (shape.map ShapeItem.int)) none ndim_supp =
      ⟨some (pySliceTo (shape.map ShapeItem.int) ((shape.length : Int) - ndim_supp)),
        some (shape.length : Int), some ((shape.length : Int) - ndim_supp),
        some ndim_supp⟩ ∧
    (0 ≤ (shape.length : Int) - ndim_supp →
      pySliceTo (shape.map ShapeItem.int) ((shape.length : Int) - ndim_supp) =
        (shape.map ShapeItem.int).take ((shape.length : Int) - ndim_supp).toNat) ∧
    find_size (some [ShapeItem.int 2, ShapeItem.int 3]) none 1 =
      ⟨some [ShapeItem.int 2], some 2, some 1, some 1⟩ := by
  refine ⟨?_, ?_, rfl⟩
  · have hne : ShapeItem.ellipsis ∉ shape.map ShapeItem.int := by
      intro hm
      obtain ⟨a, _, ha⟩ := List.mem_map.mp hm
      exact ShapeItem.noConfusion ha
    simp [find_size, hne]
  · intro h
    unfold pySliceTo
    rw [if_pos h]

/-- Witness for C3 (amended) at shape=(2,3), ndim_supp=1, discharging the
`0 ≤ ndim_batch` hypothesis of the slice/take agreement. -/
theorem find_size_shape_no_ellipsis_witness :
    pySliceTo (([2, 3] : List Int).map ShapeItem.int)
        (((([2, 3] : List Int).length) : Int) - 1) =
      (([2, 3] : List Int).map ShapeItem.int).take
        (((([2, 3] : List Int).length) : Int) - 1).toNat :=
  (find_size_shape_no_ellipsis [2, 3] 1).2.1 (by decide)

/-- C10: for every combination of `shape`, `size` and `ndim_supp` inputs
(including a shape containing an ellipsis and the case where both `shape` and
`size` are `None`), `find_size` returns its `ndim_supp` argument unchanged as
the fourth component of its result. -/
theorem find_size_preserves_ndim_supp (shape : Option (List ShapeItem))
    (size : Option (List ShapeItem)) (ndim_supp : Int) :
    (find_size shape size ndim_supp).ndim_supp = some ndim_supp := by
  cases shape with
  | some sh =>
    by_cases h : ShapeItem.ellipsis ∈ sh
    · simp [find_size, h]
    · simp [find_size, h]
  | none => cases size <;> rfl

/-! ### convert_dims / convert_shape / convert_size -/

theorem any_beq_iff_mem {α : Type} [DecidableEq α] (l : List α) (e : α) :
    l.any (fun d => d == e) = true ↔ e ∈ l := by
  rw [List.any_eq_true]
  constructor
  · rintro ⟨x, hx, hxe⟩
    rw [beq_iff_eq] at hxe
    exact hxe ▸ hx
  · intro hm
    exact ⟨e, hm, by rw [beq_iff_eq]⟩

/-- C7: `convert_dims` and `convert_shape` raise a value error exactly when an
ellipsis appears in a non-final position of the input sequence, and
`convert_size` raises a value error when an ellipsis appears anywhere in the
input sequence. -/
theorem convert_ellipsis_rules (a : List DimItem) (b : List ShapeItem)
    (c : List ShapeItem) :
    (convert_dims (DimsArg.seq a) = .error () ↔ DimItem.ellipsis ∈ a.dropLast) ∧
    (convert_shape (ShapeArg.seq b) = .error () ↔ ShapeItem.ellipsis ∈ b.dropLast) ∧
    (ShapeItem.ellipsis ∈ c → convert_size (SizeArg.seq c) = .error ()) := by
  refine ⟨?_, ?_, ?_⟩
  · show (if a.dropLast.any (fun d => d == DimItem.ellipsis) then Except.error ()
        else Except.ok (some a)) = Except.error () ↔ DimItem.ellipsis ∈ a.dropLast
    by_cases h : DimItem.ellipsis ∈ a.dropLast
    · rw [if_pos ((any_beq_iff_mem _ _).mpr h)]
      exact ⟨fun _ => h, fun _ => rfl⟩
    · rw [if_neg (fun hc => h ((any_beq_iff_mem _ _).mp hc))]
      exact ⟨fun hc => Except.noConfusion hc, fun hm => absurd hm h⟩
  · show (if b.dropLast.any (fun s => s == ShapeItem.ellipsis) then Except.error ()
        else Except.ok (some b)) = Except.error () ↔ ShapeItem.ellipsis ∈ b.dropLast
    by_cases h : ShapeItem.ellipsis ∈ b.dropLast
    · rw [if_pos ((any_beq_iff_mem _ _).mpr h)]
      exact ⟨fun _ => h, fun _ => rfl⟩
    · rw [if_neg (fun hc => h ((any_beq_iff_mem _ _).mp hc))]
      exact ⟨fun hc => Except.noConfusion hc, fun hm => absurd hm h⟩
  · intro hm
    show (if ShapeItem.ellipsis ∈ c then Except.error () else Except.ok (some c)) =
      Except.error ()
    rw [if_pos hm]

/-- Witness for C7 at a size tuple consisting of a single ellipsis. -/
theorem convert_ellipsis_rules_witness :
    convert_size (SizeArg.seq [ShapeItem.ellipsis]) = .error () :=
  (convert_ellipsis_rules [] [] [ShapeItem.ellipsis]).2.2 (by decide)

/-! ### maybe_resize -/

/-- C9: in `maybe_resize`, when `shape` is `None`, `size` is given, and the
created variable's dimensionality differs from `ndim_expected`, the function
raises no error and attempts no resize: it returns the variable unchanged
together with exactly one non-fatal warning describing the expected
(`len(size)`+`ndim_supp`) versus actual rank. -/
theorem maybe_resize_size_warning (rv_out : RV) (rv_op : Unit → RV)
    (change_rv_size : RV → List ShapeItem → RV) (ndim_expected : Option Int)
    (ndim_batch : Option Int) (ndim_supp : Int) (sz : List ShapeItem)
    (h : ndim_expected ≠ some (rv_out.ndim : Int)) :
    maybe_resize rv_out rv_op change_rv_size ndim_expected ndim_batch ndim_supp
      none (some sz) = .ok (rv_out, [⟨sz.length, ndim_supp, rv_out.ndim⟩]) := by
  unfold maybe_resize
  simp [h]

/-- Witness for C9 at a 2-dimensional variable with `ndim_expected = 3` and
`size=(5,)`. -/
theorem maybe_resize_size_warning_witness :
    (some (3 : Int) ≠ some ((RV.mk 2).ndim : Int)) ∧
    maybe_resize ⟨2⟩ (fun _ => ⟨2⟩) (fun rv _ => rv) (some 3) (some 2) 1 none
      (some [ShapeItem.int 5]) = .ok (⟨2⟩, [⟨1, 1, 2⟩]) :=
  ⟨by decide, maybe_resize_size_warning ⟨2⟩ (fun _ => ⟨2⟩) (fun rv _ => rv)
    (some 3) (some 2) 1 [ShapeItem.int 5] (by decide)⟩

/-! ### resize_from_dims -/

theorem mem_of_getLast?_eq {α : Type} (l : List α) (a : α)
    (h : l.getLast? = some a) : a ∈ l := by
  have hm : a ∈ l.getLast? := by rw [Option.mem_def, h]
  obtain ⟨hne, rfl⟩ := List.mem_getLast?_eq_getLast hm
  exact List.getLast_mem hne

theorem mem_dropLast_or_getLast (l : List DimItem) (h : DimItem.ellipsis ∈ l) :
    DimItem.ellipsis ∈ l.dropLast ∨ l.getLast? = some DimItem.ellipsis := by
  induction l with
  | nil => simp at h
  | cons a l ih =>
    cases l with
    | nil =>
      right
      have ha : DimItem.ellipsis = a := by simpa using h
      rw [← ha]; rfl
    | cons b t =>
      rcases List.mem_cons.mp h with rfl | hm
      · left
        show DimItem.ellipsis ∈ DimItem.ellipsis :: (b :: t).dropLast
        exact List.mem_cons_self _ _
      · rcases ih hm with hl | hlast
        · left
          show DimItem.ellipsis ∈ a :: (b :: t).dropLast
          exact List.mem_cons_of_mem a hl
        · right
          rw [List.getLast?_cons_cons]
          exact hlast

/-- C8: for a valid `dims` tuple (ellipsis only in the final position),
`resize_from_dims` first expands a trailing ellipsis into `ndim_implied`
`None` placeholders, then (1) when every leading resize dim is known to the
model's registry it returns `ndim_resize = len(dims) - ndim_implied` over the
expanded dims together with the registry lengths of the leading `ndim_resize`
dims and the expanded dims, (2) it raises a lookup error exactly when some
leading resize dim is absent from the registry, and (3) the raised error names
exactly the missing dimensions. -/
theorem resize_from_dims_spec (dims : List DimItem) (ndim_implied : Nat)
    (model : PmModel) (hE : DimItem.ellipsis ∉ dims.dropLast) :
    ((∀ d ∈ pySliceTo (expandDims dims ndim_implied)
          (((expandDims dims ndim_implied).length : Int) - (ndim_implied : Int)),
        dimKnown model d = true) →
      resize_from_dims dims ndim_implied model =
        .ok (((expandDims dims ndim_implied).length : Int) - (ndim_implied : Int),
          (pySliceTo (expandDims dims ndim_implied)
            (((expandDims dims ndim_implied).length : Int) - (ndim_implied : Int))).map
            (dimLength model),
          expandDims dims ndim_implied)) ∧
    ((∃ d ∈ pySliceTo (expandDims dims ndim_implied)
          (((expandDims dims ndim_implied).length : Int) - (ndim_implied : Int)),
        dimKnown model d = false) ↔
      ∃ e, resize_from_dims dims ndim_implied model = .error e) ∧
    (∀ e, resize_from_dims dims ndim_implied model = .error e →
      ∀ d, d ∈ e ↔ d ∈ pySliceTo (expandDims dims ndim_implied)
          (((expandDims dims ndim_implied).length : Int) - (ndim_implied : Int)) ∧
        dimKnown model d = false) := by
  have hcond : (if DimItem.ellipsis ∈ dims
      then dims.dropLast ++ List.replicate ndim_implied DimItem.none
      else dims) = expandDims dims ndim_implied := by
    unfold expandDims
    by_cases hm : DimItem.ellipsis ∈ dims
    · rcases mem_dropLast_or_getLast dims hm with hl | hlast
      · exact absurd hl hE
      · rw [if_pos hm, if_pos hlast]
    · rw [if_neg hm, if_neg (fun hc => hm (mem_of_getLast?_eq dims _ hc))]
  set dims2 := expandDims dims ndim_implied with hdims2
  set nr : Int := (dims2.length : Int) - (ndim_implied : Int) with hnr
  set lead := pySliceTo dims2 nr with hlead
  set unk := (lead.filter (fun d => ! dimKnown model d)).dedup with hunk
  have hrun : resize_from_dims dims ndim_implied model =
      if unk.isEmpty then .ok (nr, lead.map (dimLength model), dims2)
      else .error unk := by
    unfold resize_from_dims
    rw [hcond]
  refine ⟨?_, ?_, ?_⟩
  · intro hall
    have hfil : lead.filter (fun d => ! dimKnown model d) = [] := by
      rw [List.filter_eq_nil_iff]
      intro d hd
      simp [hall d hd]
    rw [hrun, hunk, hfil]
    rfl
  · constructor
    · rintro ⟨d, hd, hk⟩
      have hmem : d ∈ unk := by
        rw [hunk]
        exact List.mem_dedup.mpr (List.mem_filter.mpr ⟨hd, by simp [hk]⟩)
      have hne : unk.isEmpty = false := by
        cases hu : unk with
        | nil => rw [hu] at hmem; simp at hmem
        | cons _ _ => rfl
      refine ⟨unk, ?_⟩
      rw [hrun, hne]
      rfl
    · rintro ⟨e, he⟩
      rw [hrun] at he
      by_cases hemp : unk.isEmpty = true
      · rw [if_pos hemp] at he
        exact absurd he (by simp)
      · have hne : unk ≠ [] := by
          intro hc; apply hemp; rw [hc]; rfl
        obtain ⟨d, hd⟩ := List.exists_mem_of_ne_nil unk hne
        have hdf := List.mem_dedup.mp (hunk ▸ hd)
        obtain ⟨hdl, hdk⟩ := List.mem_filter.mp hdf
        exact ⟨d, hdl, by simpa using hdk⟩
  · intro e he d
    rw [hrun] at he
    by_cases hemp : unk.isEmpty = true
    · rw [if_pos hemp] at he
      exact absurd he (by simp)
    · rw [if_neg hemp] at he
      have heq : unk = e := Except.error.inj he
      subst heq
      constructor
      · intro hd
        obtain ⟨hdl, hdk⟩ := List.mem_filter.mp (List.mem_dedup.mp (hunk ▸ hd))
        exact ⟨hdl, by simpa using hdk⟩
      · rintro ⟨hdl, hdk⟩
        rw [hunk]
        exact List.mem_dedup.mpr (List.mem_filter.mpr ⟨hdl, by simp [hdk]⟩)

/-- Witness for C8: dims=("a", ...), ndim_implied=1, registry {"a" ↦ 3}; the
ellipsis expands to a None placeholder, ndim_resize=1, resize_shape=(3,). -/
theorem resize_from_dims_spec_witness :
    resize_from_dims [DimItem.name "a", DimItem.ellipsis] 1 ⟨[("a", 3)]⟩ =
      .ok (1, [3], [DimItem.name "a", DimItem.none]) :=
  (resize_from_dims_spec [DimItem.name "a", DimItem.ellipsis] 1 ⟨[("a", 3)]⟩
    (by decide)).1 (by decide)

/-! ### broadcast_dist_samples_shape -/

theorem checkShapes_intShape : ∀ (l : List (List Int)),
    checkShapes (l.map intShape) = .ok l
  | [] => rfl
  | s :: rest => by
    simp only [List.map_cons, checkShapes, check_intShape, checkShapes_intShape rest]

theorem tdim_append (u t : List Int) (p : Nat) :
    tdim (u ++ t) p = if p < t.length then tdim t p else tdim u (p - t.length) := by
  unfold tdim
  rw [List.reverse_append, ldim_append, List.length_reverse]

theorem ldim_replicate_one : ∀ (k q : Nat), ldim (List.replicate k (1:Int)) q = 1
  | 0, _ => rfl
  | _ + 1, 0 => rfl
  | k + 1, q + 1 => ldim_replicate_one k q

theorem tdim_replicate_one (k q : Nat) : tdim (List.replicate k (1:Int)) q = 1 := by
  unfold tdim
  rw [List.reverse_replicate]
  exact ldim_replicate_one k q

theorem maxLen_const : ∀ (shapes : List (List Int)) (c : Nat), shapes ≠ [] →
    (∀ s ∈ shapes, s.length = c) → maxLen shapes = c
  | [], _, hne, _ => absurd rfl hne
  | [s], c, _, h => by
    rw [maxLen_cons, h s (List.mem_cons_self s []),
      show maxLen [] = 0 from rfl, Nat.max_zero]
  | s :: b :: t, c, _, h => by
    rw [maxLen_cons, h s (List.mem_cons_self s (b :: t)),
      maxLen_const (b :: t) c (by simp) (fun x hx => h x (List.mem_cons_of_mem s hx))]
    exact Nat.max_self c

theorem maxDimAt_const : ∀ (shapes : List (List Int)) (p : Nat) (v : Int),
    shapes ≠ [] → (∀ s ∈ shapes, tdim s p = v) → 1 ≤ v → maxDimAt shapes p = v
  | [], _, _, hne, _, _ => absurd rfl hne
  | [s], p, v, _, h, hv => by
    rw [maxDimAt_cons, h s (List.mem_cons_self s []),
      show maxDimAt [] p = 1 from rfl]
    exact max_eq_left hv
  | s :: b :: t, p, v, _, h, hv => by
    rw [maxDimAt_cons, h s (List.mem_cons_self s (b :: t)),
      maxDimAt_const (b :: t) p v (by simp)
        (fun x hx => h x (List.mem_cons_of_mem s hx)) hv]
    exact max_self v

theorem maxDimAt_congr_map (f : List Int → List Int) (p : Nat) :
    ∀ (tails : List (List Int)), (∀ t ∈ tails, tdim (f t) p = tdim t p) →
    maxDimAt (tails.map f) p = maxDimAt tails p
  | [], _ => rfl
  | t :: rest, h => by
    rw [List.map_cons, maxDimAt_cons, maxDimAt_cons, h t (List.mem_cons_self t rest),
      maxDimAt_congr_map f p rest (fun x hx => h x (List.mem_cons_of_mem t hx))]

theorem spShape_prefixed (u t : List Int) : spShape u (u ++ t) = t := by
  unfold spShape
  have hmin : min u.length (u ++ t).length = u.length := by
    apply min_eq_left; simp
  rw [hmin, List.take_left, if_pos rfl, List.drop_left]

theorem padShape_prefixed (u t : List Int) (L : Nat) :
    padShape u L (u ++ t, t) = padded u L t := by
  unfold padShape padded
  rw [List.take_left, if_pos rfl, List.drop_left, List.append_assoc]

theorem tdim_padded (u t : List Int) (L : Nat) (hL : t.length ≤ L) (p : Nat) :
    tdim (padded u L t) p = if p < L then tdim t p else tdim u (p - L) := by
  unfold padded
  rw [tdim_append]
  have hlen : (List.replicate (L - t.length) (1:Int) ++ t).length = L := by
    simp; omega
  rw [hlen]
  by_cases hp : p < L
  · rw [if_pos hp, if_pos hp, tdim_append]
    by_cases hpt : p < t.length
    · rw [if_pos hpt]
    · rw [if_neg hpt, tdim_replicate_one, tdim_of_le t p (by omega)]
  · rw [if_neg hp, if_neg hp]

theorem padded_pos (u : List Int) (L : Nat) (tails : List (List Int))
    (hu : ∀ d ∈ u, 0 < d) (ht : ∀ t ∈ tails, ∀ d ∈ t, 0 < d) :
    ∀ s ∈ tails.map (padded u L), ∀ d ∈ s, 0 < d := by
  intro s hs d hd
  obtain ⟨t, htm, rfl⟩ := List.mem_map.mp hs
  unfold padded at hd
  rcases List.mem_append.mp hd with hdu | hdp
  · exact hu d hdu
  · rcases List.mem_append.mp hdp with hdr | hdt
    · have := List.eq_of_mem_replicate hdr
      omega
    · exact ht t htm d hdt

theorem padded_compat (u : List Int) (tails : List (List Int))
    (hcompat : NumpyCompatible tails) :
    NumpyCompatible (tails.map (padded u (maxLen tails))) := by
  intro p _ s hs t' ht' hs1 ht1
  obtain ⟨t1, ht1m, rfl⟩ := List.mem_map.mp hs
  obtain ⟨t2, ht2m, rfl⟩ := List.mem_map.mp ht'
  rw [tdim_padded u t1 _ (length_le_maxLen tails t1 ht1m) p] at hs1 ⊢
  rw [tdim_padded u t2 _ (length_le_maxLen tails t2 ht2m) p] at ht1 ⊢
  by_cases hp : p < maxLen tails
  · simp only [if_pos hp] at hs1 ht1 ⊢
    exact compat_all tails hcompat p t1 ht1m t2 ht2m hs1 ht1
  · simp only [if_neg hp] at hs1 ht1 ⊢

theorem refBroadcast_padded (u : List Int) (tails : List (List Int))
    (htne : tails ≠ []) (hu : ∀ d ∈ u, 0 < d)
    (ht : ∀ t ∈ tails, ∀ d ∈ t, 0 < d) :
    refBroadcast (tails.map (padded u (maxLen tails))) = u ++ refBroadcast tails := by
  have hmapne : tails.map (padded u (maxLen tails)) ≠ [] :=
    fun hc => htne (List.map_eq_nil_iff.mp hc)
  have hglen : ∀ s ∈ tails.map (padded u (maxLen tails)),
      s.length = u.length + maxLen tails := by
    intro s hs
    obtain ⟨t, htm, rfl⟩ := List.mem_map.mp hs
    unfold padded
    have := length_le_maxLen tails t htm
    simp
    omega
  have hmaxg : maxLen (tails.map (padded u (maxLen tails))) = u.length + maxLen tails :=
    maxLen_const _ _ hmapne hglen
  have hgpos' : ∀ s ∈ tails.map (padded u (maxLen tails)), ∀ p, 1 ≤ tdim s p :=
    fun s hs => pos_tdim s (padded_pos u (maxLen tails) tails hu ht s hs)
  have htpos : ∀ t ∈ tails, ∀ p, 1 ≤ tdim t p := fun t htm => pos_tdim t (ht t htm)
  have hupos : ∀ p, 1 ≤ tdim u p := pos_tdim u hu
  apply tdim_ext
  · rw [length_refBroadcast, hmaxg]
    rw [List.length_append, length_refBroadcast]
  · intro p
    rw [tdim_refBroadcast, hmaxg, tdim_append, length_refBroadcast]
    by_cases hp : p < maxLen tails
    · rw [if_pos (by omega), if_pos hp, tdim_refBroadcast, if_pos hp,
        refDimAt_eq_maxDimAt _ _ hgpos', refDimAt_eq_maxDimAt _ _ htpos]
      exact maxDimAt_congr_map (padded u (maxLen tails)) p tails
        (fun t htm => by
          rw [tdim_padded u t _ (length_le_maxLen tails t htm) p, if_pos hp])
    · by_cases hp2 : p < u.length + maxLen tails
      · rw [if_pos hp2, if_neg hp, refDimAt_eq_maxDimAt _ _ hgpos']
        exact maxDimAt_const _ p (tdim u (p - maxLen tails)) hmapne
          (fun s hs => by
            obtain ⟨t, htm, rfl⟩ := List.mem_map.mp hs
            rw [tdim_padded u t _ (length_le_maxLen tails t htm) p, if_neg hp])
          (hupos _)
      · rw [if_neg hp2, if_neg hp, tdim_of_le u _ (by omega)]

theorem bdss_tuple_eq (shapes : List (List Entry)) (l : List Int) :
    broadcast_dist_samples_shape shapes (PySize.tuple l) =
      (match checkShapes shapes with
      | .error e => .error e
      | .ok shapes =>
        let sp_shapes := shapes.map (spShape l)
        match shapes_broadcasting (sp_shapes.map intShape) true with
        | .error _ => .error .valueError
        | .ok none => .error .valueError
        | .ok (some broadcast_shape) =>
          let broadcastable_shapes :=
            (shapes.zip sp_shapes).map (padShape l broadcast_shape.length)
          match shapes_broadcasting (broadcastable_shapes.map intShape) true with
          | .ok (some out) => .ok out
          | _ => .error .valueError) := rfl

theorem bdss_prefixed (u : List Int) (tails : List (List Int)) (htne : tails ≠ [])
    (hu : ∀ d ∈ u, 0 < d) (ht : ∀ t ∈ tails, ∀ d ∈ t, 0 < d)
    (hcompat : NumpyCompatible tails) :
    broadcast_dist_samples_shape ((tails.map (fun t => u ++ t)).map intShape)
      (PySize.tuple u) = .ok (u ++ refBroadcast tails) := by
  have hsp : (tails.map (fun t => u ++ t)).map (spShape u) = tails := by
    rw [List.map_map]
    have h1 : ∀ t ∈ tails, (spShape u ∘ fun t => u ++ t) t = id t := by
      intro t _
      show spShape u (u ++ t) = t
      exact spShape_prefixed u t
    rw [List.map_congr_left h1, List.map_id]
  have hinner : shapes_broadcasting (tails.map intShape) true =
      .ok (some (refBroadcast tails)) :=
    shapes_broadcasting_numpy_core tails true ht hcompat
  have hzip : ((tails.map (fun t => u ++ t)).zip tails).map
      (padShape u (maxLen tails)) = tails.map (padded u (maxLen tails)) := by
    nth_rewrite 3 [show tails = tails.map id from (List.map_id tails).symm]
    rw [List.zip_map', List.map_map]
    apply List.map_congr_left
    intro t _
    show padShape u (maxLen tails) (u ++ t, t) = padded u (maxLen tails) t
    exact padShape_prefixed u t (maxLen tails)
  have hfinal : shapes_broadcasting ((tails.map (padded u (maxLen tails))).map intShape)
      true = .ok (some (refBroadcast (tails.map (padded u (maxLen tails))))) :=
    shapes_broadcasting_numpy_core _ true
      (padded_pos u (maxLen tails) tails hu ht) (padded_compat u tails hcompat)
  have hrefg := refBroadcast_padded u tails htne hu ht
  simp only [bdss_tuple_eq, checkShapes_intShape, hsp, hinner, length_refBroadcast,
    hzip, hfinal, hrefg]

/-- C2: `broadcast_dist_samples_shape` strips a common `size` prefix from the
input shapes before broadcasting, inserts singleton dimensions between the
size prefix and each remainder to align ranks, and re-prepends `size` to the
result: for every size tuple of positive dims and every nonempty list of
positive, mutually broadcast-compatible remainders, the result on the
size-prefixed shapes is the size tuple followed by the broadcast of the
remainders; in particular
`broadcast_dist_samples_shape([(100,), (100,5), (100,4,5)], size=100) == (100,4,5)`
and `broadcast_dist_samples_shape([(1,), (5,), (4,5)], size=100) == (4,5)`. -/
theorem broadcast_dist_samples_shape_spec :
    (∀ (u : List Int) (tails : List (List Int)), tails ≠ [] →
      (∀ d ∈ u, 0 < d) → (∀ t ∈ tails, ∀ d ∈ t, 0 < d) → NumpyCompatible tails →
      broadcast_dist_samples_shape ((tails.map (fun t => u ++ t)).map intShape)
        (PySize.tuple u) = .ok (u ++ refBroadcast tails)) ∧
    broadcast_dist_samples_shape
      [intShape [100], intShape [100, 5], intShape [100, 4, 5]] (.int 100) =
      .ok [100, 4, 5] ∧
    broadcast_dist_samples_shape
      [intShape [1], intShape [5], intShape [4, 5]] (.int 100) = .ok [4, 5] :=
  ⟨bdss_prefixed, rfl, rfl⟩

/-- Witness for C2 at size=(100,) and remainders (), (5,), (4,5) (the
size-prefixed shapes of the first example). -/
theorem broadcast_dist_samples_shape_spec_witness :
    broadcast_dist_samples_shape
      (([[], [5], [4, 5]].map (fun t => [100] ++ t)).map intShape)
      (PySize.tuple [100]) = .ok ([100] ++ refBroadcast [[], [5], [4, 5]]) :=
  broadcast_dist_samples_shape_spec.1 [100] [[], [5], [4, 5]] (by decide) (by decide)
    (by decide) (by decide)
